import Mathlib

/-!
Verification of the polymarket trading bot's core pipeline against its
specification.  The TypeScript sources are shallowly embedded: numeric
values (JS `number`) are modelled as exact rationals `ℚ` except where the
code calls `Math.log`, which is modelled over `ℝ`; maps and the SQLite
store are modelled as association lists; the event bus log is an explicit
list of emitted events threaded through each operation.
-/

namespace PolyBot

/-- Order side, from `@polymarket/clob-client` (`Side.BUY` / `Side.SELL`). -/
inductive Side where
  | BUY
  | SELL
deriving DecidableEq

/-- Order type (`GTC` / `GTD`), from the exchange client types. -/
inductive OrderType where
  | GTC
  | GTD
deriving DecidableEq

/-- Order status strings used by the store; `opened` models the source
string "open" (a Lean keyword). `filledOrCancelled` models
"filled_or_cancelled". -/
inductive OrderStatus where
  | pending
  | opened
  | filled
  | cancelled
  | filledOrCancelled
deriving DecidableEq

/-- `Position` from `src/types/index.ts`. -/
structure Position where
  tokenId : String
  market : String
  size : ℚ
  avgEntryPrice : ℚ
  currentPrice : ℚ
  unrealizedPnl : ℚ
  realizedPnl : ℚ
  side : Side
deriving DecidableEq

/-- `OrderRequest` from `src/types/index.ts`. -/
structure OrderRequest where
  tokenId : String
  side : Side
  price : ℚ
  size : ℚ
  type : OrderType
  expiration : Option Nat := none
deriving DecidableEq

/-- An order row as persisted by the store (`OrderRequest` plus id and status). -/
structure OrderRec where
  orderId : String
  tokenId : String
  side : Side
  price : ℚ
  size : ℚ
  type : OrderType
  status : OrderStatus
deriving DecidableEq

/-- `MarketGroup` from `src/types/index.ts`. -/
structure MarketGroup where
  conditionId : String
  tokenIds : List String
deriving DecidableEq

/-- `RiskLimits` from `src/types/index.ts`; `maxOpenOrders` is compared
against a list length, so it is modelled as `Nat`. -/
structure RiskLimits where
  maxPositionSize : ℚ
  maxTotalExposure : ℚ
  maxLossPerTrade : ℚ
  maxDailyLoss : ℚ
  maxOpenOrders : Nat
deriving DecidableEq

/-- Events observable on the bus, restricted to the payloads the verified
operations emit.  Constructors correspond to the `Events` constants of
`src/types/index.ts`. -/
inductive Ev where
  | orderFilled (orderId : String)
  | orderCancelled (orderId : String)
  | positionChanged (tokenId : String) (position : Position)
  | riskBreach (reason : String)
  | marketGroupsUpdated (groups : List MarketGroup)
deriving DecidableEq

/-! ## Store (`src/core/store.ts`)

The SQLite store is modelled as in-memory data: positions keyed by
`tokenId`, orders keyed by `orderId`, and the daily-PnL aggregate of
`getDailyPnl(new Date())` abstracted as a field (it is read-only in the
verified operations). -/

structure Store where
  positions : List Position
  orders : List OrderRec
  dailyPnl : ℚ
deriving DecidableEq

/-- `store.getPosition(tokenId)`: lookup by primary key. -/
def Store.getPosition (s : Store) (tokenId : String) : Option Position :=
  s.positions.find? (fun p => p.tokenId = tokenId)

/-- `store.savePosition(position)`: `INSERT OR REPLACE` keyed on `token_id`. -/
def Store.savePosition (s : Store) (p : Position) : Store :=
  { s with positions :=
      if s.positions.any (fun q => q.tokenId = p.tokenId) then
        s.positions.map (fun q => if q.tokenId = p.tokenId then p else q)
      else
        s.positions ++ [p] }

/-- `store.getAllPositions()`: `SELECT * FROM positions WHERE size != 0`. -/
def Store.getAllPositions (s : Store) : List Position :=
  s.positions.filter (fun p => p.size ≠ 0)

/-- `store.saveOrder(order)`: `INSERT OR REPLACE` keyed on `order_id`. -/
def Store.saveOrder (s : Store) (o : OrderRec) : Store :=
  { s with orders :=
      if s.orders.any (fun q => q.orderId = o.orderId) then
        s.orders.map (fun q => if q.orderId = o.orderId then o else q)
      else
        s.orders ++ [o] }

/-- `store.getOpenOrders()`: orders with status in `{pending, open}`. -/
def Store.getOpenOrders (s : Store) : List OrderRec :=
  s.orders.filter (fun o => o.status = OrderStatus.pending ∨ o.status = OrderStatus.opened)

/-! ## Position update (`OrderManager.updatePosition`, order-manager source) -/

/-- The new `Position` value computed by `OrderManager.updatePosition` for a
fill `(tokenId, side, size, price)` against the stored position (before the
final `unrealizedPnl` write). -/
def updatePositionCore (tokenId : String) (side : Side) (size price : ℚ)
    (existing : Option Position) : Position :=
  match existing with
  | none =>
      { tokenId := tokenId, market := "",
        size := if side = Side.BUY then size else -size,
        avgEntryPrice := price, currentPrice := price,
        unrealizedPnl := 0, realizedPnl := 0, side := side }
  | some ex =>
      if ex.size = 0 then
        { tokenId := tokenId, market := "",
          size := if side = Side.BUY then size else -size,
          avgEntryPrice := price, currentPrice := price,
          unrealizedPnl := 0, realizedPnl := 0, side := side }
      else if ex.side = side then
        -- same-side fill: size-weighted entry update
        let totalSize := ex.size + (if side = Side.BUY then size else -size)
        let totalCost := ex.size * ex.avgEntryPrice + size * price
        { ex with size := totalSize,
                  avgEntryPrice := totalCost / |totalSize|,
                  currentPrice := price }
      else
        -- opposite-side fill: realize PnL on the fill size
        let netSize := ex.size + (if side = Side.BUY then size else -size)
        let realized := ex.realizedPnl +
          size * (price - ex.avgEntryPrice) * (if ex.side = Side.BUY then 1 else -1)
        { ex with size := netSize, realizedPnl := realized,
                  currentPrice := price,
                  side := if 0 ≤ netSize then Side.BUY else Side.SELL }

/-- Full `updatePosition`: compute the new position, set
`unrealizedPnl = (currentPrice − avgEntryPrice) × size`, persist it and
emit `position_changed`. -/
def updatePosition (tokenId : String) (side : Side) (size price : ℚ)
    (s : Store) (events : List Ev) : Store × List Ev :=
  let p0 := updatePositionCore tokenId side size price (s.getPosition tokenId)
  let p := { p0 with unrealizedPnl := (p0.currentPrice - p0.avgEntryPrice) * p0.size }
  (s.savePosition p, events ++ [Ev.positionChanged tokenId p])

/-- The specification's same-side average-entry formula (§4.6):
`new_avg = (|P.size| × P.avg_entry + size × price) / |new_size|`.
Modelled from the spec for comparison against `updatePositionCore`. -/
def specSameSideNewAvg (pSize pAvg fillSize fillPrice : ℚ) : ℚ :=
  let newSize := pSize + fillSize * (if 0 ≤ pSize then 1 else -1)
  (|pSize| * pAvg + fillSize * fillPrice) / |newSize|

/-! ## Risk manager (`src/services/risk-manager.ts`) -/

/-- Rejection reasons of `RiskManager.checkOrder`.  The source formats each
as an interpolated string; the constructors keep the distinguishing data
(the stored halt reason) and drop the numeric interpolations. -/
inductive RejectReason where
  | tradingHalted (haltReason : Option String)
  | orderValueExceedsMaxPositionSize
  | wouldExceedMaxTotalExposure
  | maxOpenOrdersReached
  | dailyLossLimitExceeded
deriving DecidableEq

/-- Result of `checkOrder`. -/
structure CheckResult where
  allowed : Bool
  reason : Option RejectReason := none
deriving DecidableEq

/-- Mutable state of the `RiskManager` instance. -/
structure RiskState where
  limits : RiskLimits
  halted : Bool
  haltReason : Option String
deriving DecidableEq

/-- The halt reason the daily-loss branch passes to `halt` ("Daily loss
limit exceeded"). -/
def dailyLossHaltMsg : String := "Daily loss limit exceeded"

/-- `RiskManager.halt(reason)`: latch the flag, record the reason, emit
`risk_breach`. -/
def haltRM (reason : String) (rs : RiskState) : RiskState × List Ev :=
  ({ rs with halted := true, haltReason := some reason }, [Ev.riskBreach reason])

/-- `RiskManager.getExposure().total`: `Σ |size × currentPrice|` over active
positions plus `Σ price × size` over live open orders. -/
def exposureTotal (s : Store) : ℚ :=
  ((s.getAllPositions).map (fun p => |p.size * p.currentPrice|)).sum +
    ((s.getOpenOrders).map (fun o => o.price * o.size)).sum

/-- `RiskManager.checkOrder(order)`: admission checks in source order;
returns the result, the updated risk state, and the events emitted during
the call (the daily-loss branch calls `halt`, which emits `risk_breach`). -/
def checkOrder (o : OrderRequest) (rs : RiskState) (s : Store) :
    CheckResult × RiskState × List Ev :=
  if rs.halted then
    ({ allowed := false, reason := some (RejectReason.tradingHalted rs.haltReason) }, rs, [])
  else
    let orderValue := o.price * o.size
    if rs.limits.maxPositionSize < orderValue then
      ({ allowed := false, reason := some RejectReason.orderValueExceedsMaxPositionSize }, rs, [])
    else if rs.limits.maxTotalExposure < exposureTotal s + orderValue then
      ({ allowed := false, reason := some RejectReason.wouldExceedMaxTotalExposure }, rs, [])
    else if rs.limits.maxOpenOrders ≤ (s.getOpenOrders).length then
      ({ allowed := false, reason := some RejectReason.maxOpenOrdersReached }, rs, [])
    else if s.dailyPnl < -rs.limits.maxDailyLoss then
      let h := haltRM dailyLossHaltMsg rs
      ({ allowed := false, reason := some RejectReason.dailyLossLimitExceeded }, h.1, h.2)
    else
      ({ allowed := true }, rs, [])

/-! ## Order manager (`src/services/order-manager.ts`) -/

/-- `OrderResult` as returned by `submitOrder` / the exchange client. -/
structure OrderResult where
  success : Bool
  orderId : Option String := none
  filledSize : Option ℚ := none
  avgFillPrice : Option ℚ := none
  error : Option RejectReason := none
deriving DecidableEq

/-- Combined mutable world visible to `submitOrder`: the risk manager's
state, the store, and the bus log of emitted events. -/
structure World where
  risk : RiskState
  store : Store
  events : List Ev
deriving DecidableEq

/-- The deterministic dry-run identifier `` `dry-${Date.now()}` ``, with the
clock value passed explicitly. -/
def dryOrderId (now : Nat) : String := "dry-" ++ toString now

/-- `OrderManager.submitOrder(order)`.  `client` is the exchange client's
`placeOrder` behaviour; `dryRun` and `now` are the constructor flag and the
clock.  Returns the caller-visible result and the updated world. -/
def submitOrder (client : OrderRequest → OrderResult) (dryRun : Bool) (now : Nat)
    (o : OrderRequest) (w : World) : OrderResult × World :=
  let rc := checkOrder o w.risk w.store
  let w1 : World := { w with risk := rc.2.1, events := w.events ++ rc.2.2 }
  if rc.1.allowed = false then
    ({ success := false, error := rc.1.reason }, w1)
  else if dryRun then
    ({ success := true, orderId := some (dryOrderId now) }, w1)
  else
    let result := client o
    match result.orderId, result.success with
    | some oid, true =>
        let s1 := w1.store.saveOrder
          { orderId := oid, tokenId := o.tokenId, side := o.side,
            price := o.price, size := o.size, type := o.type,
            status := OrderStatus.opened }
        let evs1 := w1.events ++ [Ev.orderFilled oid]
        match result.filledSize with
        | some fs =>
            if 0 < fs then
              let up := updatePosition o.tokenId o.side fs
                (result.avgFillPrice.getD o.price) s1 evs1
              (result, { w1 with store := up.1, events := up.2 })
            else
              (result, { w1 with store := s1, events := evs1 })
        | none => (result, { w1 with store := s1, events := evs1 })
    | _, _ => (result, w1)

/-! ## Discovery service (`src/services/gamma.ts`) -/

/-- `GammaMarket` (catalog response sub-market); display-only fields
(`question`, `active`, `closed`) are omitted as the extraction never reads
them.  `clobTokenIds` is the raw JSON string. -/
structure GammaMarket where
  conditionId : String
  clobTokenIds : String
deriving DecidableEq

/-- `GammaEvent` (catalog response event); display-only fields (`id`,
`title`, `slug`) are omitted. -/
structure GammaEvent where
  negRisk : Bool
  markets : List GammaMarket
deriving DecidableEq

/-- Groups contributed by one catalog event (one iteration of the loop in
`extractMarketGroups`).  `parse` stands for `parseClobTokenIds`
(`JSON.parse` with malformed payloads giving `[]`), passed explicitly so
results hold for every parse behaviour. -/
def eventGroups (parse : String → List String) (e : GammaEvent) : List MarketGroup :=
  if e.markets.isEmpty then []
  else if e.negRisk = true ∧ 1 < e.markets.length then
    let tokenIds := e.markets.filterMap (fun m => (parse m.clobTokenIds).head?)
    if 2 ≤ tokenIds.length then
      [{ conditionId := (e.markets.headD { conditionId := "", clobTokenIds := "" }).conditionId,
         tokenIds := tokenIds }]
    else []
  else
    match e.markets with
    | [m] =>
        let ids := parse m.clobTokenIds
        if ids.length = 2 then [{ conditionId := m.conditionId, tokenIds := ids }] else []
    | _ => []

/-- `GammaService.extractMarketGroups(events)`. -/
def extractMarketGroups (parse : String → List String) (events : List GammaEvent) :
    List MarketGroup :=
  (events.map (eventGroups parse)).flatten

/-- The canonical serialization of `hasChanged`: sorted
`conditionId:tokenIds.join(",")` strings joined by ";". -/
def serializeGroups (gs : List MarketGroup) : String :=
  String.intercalate ";"
    ((gs.map (fun g => g.conditionId ++ ":" ++ String.intercalate "," g.tokenIds)).mergeSort
      (fun a b => a ≤ b))

/-- `GammaService.hasChanged(newGroups)` against the stored list. -/
def hasChanged (newGroups current : List MarketGroup) : Bool :=
  if newGroups.length ≠ current.length then true
  else serializeGroups newGroups ≠ serializeGroups current

/-- `GammaService.fetchAndUpdate` after a successful fetch producing
`groups`: replace the stored list and emit `market_groups_updated` only
when `hasChanged`.  Returns the new stored list and the events emitted. -/
def fetchAndUpdate (groups current : List MarketGroup) : List MarketGroup × List Ev :=
  if hasChanged groups current then (groups, [Ev.marketGroupsUpdated groups])
  else (current, [])

/-! ## Event bus (`src/core/events.ts`)

A handler is modelled by its behaviour on the shared mutable state: it
returns the state it leaves behind and, when it throws, the thrown error
(JS mutations made before a throw persist, so the `threw` outcome also
carries a state). -/

inductive HandlerOutcome (σ ε : Type) where
  | ok (s : σ)
  | threw (err : ε) (s : σ)

/-- State left behind by a handler invocation. -/
def HandlerOutcome.state : HandlerOutcome σ ε → σ
  | .ok s => s
  | .threw _ s => s

/-- Error logged by the bus's `catch` block, if any. -/
def HandlerOutcome.logged : HandlerOutcome σ ε → Option ε
  | .ok _ => none
  | .threw e _ => some e

/-- Observable outcome of one `emit`: the final shared state, the event
value passed to each successive handler invocation (in invocation order),
and the errors the `catch` block logged. -/
structure EmitResult (σ ε η : Type) where
  state : σ
  calls : List η
  errors : List ε

/-- `EventBus.emit`: iterate the registered handlers in registration order,
invoking each inside `try`/`catch`; a throw is logged and the loop
continues with the next handler. -/
def emitRun (e : η) : List (η → σ → HandlerOutcome σ ε) → σ → EmitResult σ ε η
  | [], s => ⟨s, [], []⟩
  | h :: hs, s =>
      let out := h e s
      let rest := emitRun e hs out.state
      ⟨rest.state, e :: rest.calls, out.logged.toList ++ rest.errors⟩

/-! ## Arbitrage strategy (`src/strategies/base.ts`, `BregmanArbStrategy`)

`evaluate` is modelled from the point where all sibling books have been
gathered (presence and staleness checks precede and are not part of the
verified claims).  Books are a total function on token ids; the current
signed position size (`getPosition(t)?.size ?? 0`) likewise. -/

/-- A price level `(price, size)` of an order book. -/
structure PriceLevel where
  price : ℚ
  size : ℚ
deriving DecidableEq

/-- The slice of `OrderBook` the strategy reads: ask ladder (ascending) and
mid price.  `bids`, `spread` and `timestamp` are not read past the
staleness gate and are omitted. -/
structure OrderBook where
  asks : List PriceLevel
  midPrice : ℚ
deriving DecidableEq

/-- `book.asks[0]`; only evaluated under a non-empty guard (JS indexing). -/
def bestAsk (b : OrderBook) : PriceLevel := b.asks.headD { price := 0, size := 0 }

/-- The `BregmanArbConfig` fields the evaluation reads. -/
structure BregmanArbConfig where
  divergenceThreshold : ℚ
  orderSize : ℚ
  maxPositionSize : ℚ
  minEdge : ℚ
  feeRate : ℚ
deriving DecidableEq

/-- A trade signal; `reason` (a human-readable log string) is omitted.
Numeric fields are real because the Bregman branch derives them from a
logarithm. -/
structure TradeSignal where
  tokenId : String
  side : Side
  confidence : ℝ
  targetPrice : ℝ
  size : ℝ

/-- Minimum of a list (`Math.min(...)` over a non-empty spread; the `[]`
case never arises in the verified uses). -/
def listMin : List ℚ → ℚ
  | [] => 0
  | x :: xs => xs.foldl min x

/-- Simple-arb edge: `1 − (Σ best ask) × (1 + feeRate)`. -/
def simpleEdge (cfg : BregmanArbConfig) (tokens : List String)
    (books : String → OrderBook) : ℚ :=
  1 - ((tokens.map (fun t => (bestAsk (books t)).price)).sum) * (1 + cfg.feeRate)

/-- `BregmanArbStrategy.checkSimpleArb`. -/
def checkSimpleArb (cfg : BregmanArbConfig) (tokens : List String)
    (books : String → OrderBook) (posSize : String → ℚ) : List TradeSignal :=
  if tokens.any (fun t => (books t).asks.isEmpty) then []
  else
    let edge := simpleEdge cfg tokens books
    if edge < cfg.minEdge then []
    else
      let minLiquidity := listMin (tokens.map (fun t => (bestAsk (books t)).size))
      let size0 := min cfg.orderSize minLiquidity
      let size := tokens.foldl (fun sz t => min sz (cfg.maxPositionSize - posSize t)) size0
      if size ≤ 0 then []
      else
        tokens.map (fun t =>
          { tokenId := t, side := Side.BUY,
            confidence := ((min (edge / cfg.minEdge) 1 : ℚ) : ℝ),
            targetPrice := (((bestAsk (books t)).price : ℚ) : ℝ),
            size := ((size : ℚ) : ℝ) })

/-- Mid prices of the group in token order. -/
def midPrices (tokens : List String) (books : String → OrderBook) : List ℚ :=
  tokens.map (fun t => (books t).midPrice)

/-- Normalized implied probabilities `q_i = mid_i / Σ mid_j`. -/
def impliedProbs (tokens : List String) (books : String → OrderBook) : List ℚ :=
  let mids := midPrices tokens books
  mids.map (fun p => p / mids.sum)

/-- KL divergence of the uniform prior from the implied distribution:
`Σ (1/n) · ln((1/n) / q_i)`. -/
noncomputable def klDivOf (n : Nat) (probs : List ℚ) : ℝ :=
  (probs.map (fun q => ((1 : ℝ) / n) * Real.log (((1 : ℝ) / n) / (q : ℝ)))).sum

/-- Scan of the `minProbIdx` loop: index of the first strict minimum. -/
def argminGo : List ℚ → ℚ → Nat → Nat → Nat
  | [], _, best, _ => best
  | y :: ys, bv, best, i => if y < bv then argminGo ys y i (i + 1) else argminGo ys bv best (i + 1)

/-- Index of the first minimal element (the code's linear scan starting at
index 0 and replacing on strict `<`). -/
def argmin : List ℚ → Nat
  | [] => 0
  | x :: xs => argminGo xs x 0 1

section
open Classical

/-- `BregmanArbStrategy.checkBregmanArb`. -/
noncomputable def checkBregmanArb (cfg : BregmanArbConfig) (tokens : List String)
    (books : String → OrderBook) (posSize : String → ℚ) : List TradeSignal :=
  let mids := midPrices tokens books
  if mids.sum = 0 then []
  else
    let probs := impliedProbs tokens books
    if probs.any (fun q => q ≤ 0) then []
    else
      let klDiv := klDivOf tokens.length probs
      if klDiv < (cfg.divergenceThreshold : ℝ) then []
      else
        let targetTokenId := tokens.getD (argmin probs) ""
        let book := books targetTokenId
        let currentSize := posSize targetTokenId
        if cfg.maxPositionSize ≤ currentSize then []
        else
          let sizeMultiplier : ℝ := min (klDiv / (cfg.divergenceThreshold : ℝ)) 2
          let availableLiquidity : ℚ := if book.asks.isEmpty then 0 else (bestAsk book).size
          let remainingCapacity : ℚ := cfg.maxPositionSize - currentSize
          let size : ℝ := min ((cfg.orderSize : ℝ) * sizeMultiplier)
            (min ((availableLiquidity : ℚ) : ℝ) ((remainingCapacity : ℚ) : ℝ))
          if size ≤ 0 then []
          else
            let targetPrice : ℚ := if book.asks.isEmpty then book.midPrice else (bestAsk book).price
            [{ tokenId := targetTokenId, side := Side.BUY,
               confidence := min (klDiv / ((cfg.divergenceThreshold : ℝ) * 2)) 1,
               targetPrice := ((targetPrice : ℚ) : ℝ),
               size := size }]

/-- The tail of `BregmanArbStrategy.evaluate` once all books are gathered:
the simple-arb check short-circuits the Bregman check. -/
noncomputable def evaluateSignals (cfg : BregmanArbConfig) (tokens : List String)
    (books : String → OrderBook) (posSize : String → ℚ) : List TradeSignal :=
  let simple := checkSimpleArb cfg tokens books posSize
  if simple.isEmpty then checkBregmanArb cfg tokens books posSize else simple

end

/-- The specification's closed form of the simple-arb basket size:
`min(base_size, min best-ask size across the group, min over tokens of
(max_position_size − current signed size))`. -/
def simpleArbSize (cfg : BregmanArbConfig) (tokens : List String)
    (books : String → OrderBook) (posSize : String → ℚ) : ℚ :=
  min cfg.orderSize
    (min (listMin (tokens.map (fun t => (bestAsk (books t)).size)))
         (listMin (tokens.map (fun t => cfg.maxPositionSize - posSize t))))

/-- Ghost variant of `argminGo` that also carries the running minimum
value, used to reason about the scan. -/
def argminGoV : List ℚ → ℚ → Nat → Nat → Nat × ℚ
  | [], bv, best, _ => (best, bv)
  | y :: ys, bv, best, i =>
      if y < bv then argminGoV ys y i (i + 1) else argminGoV ys bv best (i + 1)

/-- The token the Bregman branch targets: the group token at the index of
the first minimal implied probability. -/
def bregTarget (tokens : List String) (books : String → OrderBook) : String :=
  tokens.getD (argmin (impliedProbs tokens books)) ""

/-- KL divergence computed by the Bregman branch for a group. -/
noncomputable def bregKlDiv (tokens : List String) (books : String → OrderBook) : ℝ :=
  klDivOf tokens.length (impliedProbs tokens books)

/-- The Bregman branch's order size:
`min(base × min(D/threshold, 2), best-ask size, remaining capacity)`. -/
noncomputable def bregSize (cfg : BregmanArbConfig) (tokens : List String)
    (books : String → OrderBook) (posSize : String → ℚ) : ℝ :=
  let book := books (bregTarget tokens books)
  let availableLiquidity : ℚ := if book.asks.isEmpty then 0 else (bestAsk book).size
  min ((cfg.orderSize : ℝ) * min (bregKlDiv tokens books / (cfg.divergenceThreshold : ℝ)) 2)
    (min ((availableLiquidity : ℚ) : ℝ)
      (((cfg.maxPositionSize - posSize (bregTarget tokens books)) : ℚ) : ℝ))

/-- Default strategy configuration of `BregmanArbStrategy` (threshold 0.05,
base size 10, max position 50, min edge 1%, fee 2%). -/
def c5Cfg : BregmanArbConfig :=
  { divergenceThreshold := 1/20, orderSize := 10, maxPositionSize := 50,
    minEdge := 1/100, feeRate := 1/50 }

/-- Books of the spec's Bregman example: mids 0.80/0.20, asks 0.81/0.21 of
depth 30. -/
def c5Books : String → OrderBook := fun t =>
  if t = "Y" then { asks := [{ price := 81/100, size := 30 }], midPrice := 4/5 }
  else { asks := [{ price := 21/100, size := 30 }], midPrice := 1/5 }

/-! ## Theorems -/

/-- C1: on a same-side fill against a SELL (negative-size) position the
code's `totalCost = P.size × P.avg_entry + size × price` uses the signed
size, not `|P.size|` as the spec's weighted-average formula requires: an
existing short of 10 at 0.60, hit by a same-side SELL of 10 at 0.40, gets
`avg_entry_price = −0.1` while the spec formula gives `0.5`. -/
theorem updatePosition_sell_same_side_diverges_from_spec :
    (updatePosition "t1" Side.SELL 10 (2/5)
        { positions := [{ tokenId := "t1", market := "", size := -10,
                          avgEntryPrice := 3/5, currentPrice := 3/5,
                          unrealizedPnl := 0, realizedPnl := 0, side := Side.SELL }],
          orders := [], dailyPnl := 0 } []).1.getPosition "t1"
      = some { tokenId := "t1", market := "", size := -20,
               avgEntryPrice := -(1/10), currentPrice := 2/5,
               unrealizedPnl := -10, realizedPnl := 0,
               side := Side.SELL }
    ∧ specSameSideNewAvg (-10) (3/5) 10 (2/5) = 1/2
    ∧ (-(1/10) : ℚ) ≠ specSameSideNewAvg (-10) (3/5) 10 (2/5) := by
  refine ⟨?_, by norm_num [specSameSideNewAvg], by norm_num [specSameSideNewAvg]⟩
  simp [updatePosition, updatePositionCore, Store.getPosition, Store.savePosition,
    List.find?]
  norm_num [abs_of_nonpos]

/-- C2: the PnL scenario BUY 10 @ 0.40, BUY 10 @ 0.60, SELL 10 @ 0.70 from
an empty store: after the second fill `size = 20` and `avg_entry = 0.50`;
after the third `realized_pnl` grows by `2.0`, `size = 10`, `side = BUY`;
after every update `unrealized_pnl = (current − avg_entry) × size`. -/
theorem updatePosition_pnl_scenario :
    (let s0 : Store := { positions := [], orders := [], dailyPnl := 0 }
     let r1 := updatePosition "tok" Side.BUY 10 (2/5) s0 []
     let r2 := updatePosition "tok" Side.BUY 10 (3/5) r1.1 r1.2
     let r3 := updatePosition "tok" Side.SELL 10 (7/10) r2.1 r2.2
     r1.1.getPosition "tok"
        = some { tokenId := "tok", market := "", size := 10, avgEntryPrice := 2/5,
                 currentPrice := 2/5, unrealizedPnl := (2/5 - 2/5) * 10, realizedPnl := 0,
                 side := Side.BUY }
     ∧ r2.1.getPosition "tok"
        = some { tokenId := "tok", market := "", size := 20, avgEntryPrice := 1/2,
                 currentPrice := 3/5, unrealizedPnl := (3/5 - 1/2) * 20, realizedPnl := 0,
                 side := Side.BUY }
     ∧ r3.1.getPosition "tok"
        = some { tokenId := "tok", market := "", size := 10, avgEntryPrice := 1/2,
                 currentPrice := 7/10, unrealizedPnl := (7/10 - 1/2) * 10,
                 realizedPnl := 0 + 10 * (7/10 - 1/2), side := Side.BUY }
     ∧ (0 : ℚ) + 10 * (7/10 - 1/2) = 2) := by
  refine ⟨?_, ?_, ?_, by norm_num⟩ <;>
  · simp [updatePosition, updatePositionCore, Store.getPosition, Store.savePosition,
      List.find?]
    try norm_num

/-- C3: when the first four admission checks pass and the stored daily PnL
is strictly below `−max_daily_loss`, `checkOrder` rejects, latches the halt
flag, and emits `risk_breach` exactly once; any subsequent `checkOrder`
from the resulting state (any order, any store) rejects with the halt
reason, emits nothing, and leaves the state unchanged. -/
theorem checkOrder_daily_loss_halts_once (o o2 : OrderRequest) (rs : RiskState)
    (s s2 : Store)
    (hnotHalted : rs.halted = false)
    (hvalue : o.price * o.size ≤ rs.limits.maxPositionSize)
    (hexposure : exposureTotal s + o.price * o.size ≤ rs.limits.maxTotalExposure)
    (hopen : (s.getOpenOrders).length < rs.limits.maxOpenOrders)
    (hloss : s.dailyPnl < -rs.limits.maxDailyLoss) :
    (checkOrder o rs s).1.allowed = false
    ∧ (checkOrder o rs s).2.1.halted = true
    ∧ (checkOrder o rs s).2.2 = [Ev.riskBreach dailyLossHaltMsg]
    ∧ (checkOrder o2 (checkOrder o rs s).2.1 s2).1
        = { allowed := false,
            reason := some (RejectReason.tradingHalted (some dailyLossHaltMsg)) }
    ∧ (checkOrder o2 (checkOrder o rs s).2.1 s2).2.2 = []
    ∧ (checkOrder o2 (checkOrder o rs s).2.1 s2).2.1 = (checkOrder o rs s).2.1 := by
  have h1 : checkOrder o rs s
      = ({ allowed := false, reason := some RejectReason.dailyLossLimitExceeded },
         { rs with halted := true, haltReason := some dailyLossHaltMsg },
         [Ev.riskBreach dailyLossHaltMsg]) := by
    simp [checkOrder, haltRM, hnotHalted, not_lt.mpr hvalue, not_lt.mpr hexposure,
      not_le.mpr hopen, hloss]
  rw [h1]
  simp [checkOrder]

/-- C3 witness: the spec scenario `max_daily_loss = 50`, daily PnL `−60`,
with an order passing the first four checks. -/
theorem checkOrder_daily_loss_halts_once_witness :
    (let limits : RiskLimits := { maxPositionSize := 100, maxTotalExposure := 1000,
                                  maxLossPerTrade := 25, maxDailyLoss := 50,
                                  maxOpenOrders := 5 }
     let rs : RiskState := { limits := limits, halted := false, haltReason := none }
     let s : Store := { positions := [], orders := [], dailyPnl := -60 }
     let o : OrderRequest := { tokenId := "tk", side := Side.BUY, price := 1/2,
                               size := 10, type := OrderType.GTC }
     (checkOrder o rs s).1.allowed = false
     ∧ (checkOrder o rs s).2.1.halted = true
     ∧ (checkOrder o rs s).2.2 = [Ev.riskBreach dailyLossHaltMsg]
     ∧ (checkOrder o (checkOrder o rs s).2.1 s).2.2 = []) := by
  have h := checkOrder_daily_loss_halts_once
    { tokenId := "tk", side := Side.BUY, price := 1/2, size := 10, type := OrderType.GTC }
    { tokenId := "tk", side := Side.BUY, price := 1/2, size := 10, type := OrderType.GTC }
    { limits := { maxPositionSize := 100, maxTotalExposure := 1000, maxLossPerTrade := 25,
                  maxDailyLoss := 50, maxOpenOrders := 5 },
      halted := false, haltReason := none }
    { positions := [], orders := [], dailyPnl := -60 }
    { positions := [], orders := [], dailyPnl := -60 }
    rfl
    (by norm_num)
    (by norm_num [exposureTotal, Store.getAllPositions, Store.getOpenOrders])
    (by norm_num [Store.getOpenOrders])
    (by norm_num)
  exact ⟨h.1, h.2.1, h.2.2.1, h.2.2.2.2.1⟩

/-- C8: `emit` invokes every registered handler, in registration order,
with the same event value; the final shared state is the fold of all
handler effects (so a throwing handler never prevents the later ones), and
`emit` returns an `EmitResult` unconditionally (it never propagates a
handler's exception). -/
theorem emitRun_invokes_all_handlers {σ ε η : Type} (e : η)
    (hs : List (η → σ → HandlerOutcome σ ε)) (s : σ) :
    (emitRun e hs s).calls = hs.map (fun _ => e)
    ∧ (emitRun e hs s).state = hs.foldl (fun st h => (h e st).state) s := by
  induction hs generalizing s with
  | nil => simp [emitRun]
  | cons h hs ih => simp [emitRun, ih]

/-- Every group contributed by one catalog event has at least two token
ids (helper for the discovery invariant). -/
theorem eventGroups_two_le (parse : String → List String) (e : GammaEvent) :
    ∀ g ∈ eventGroups parse e, 2 ≤ g.tokenIds.length := by
  intro g hg
  unfold eventGroups at hg
  split at hg
  · simp at hg
  · split at hg
    · dsimp only at hg
      split at hg
      · rename_i hlen
        simp only [List.mem_singleton] at hg
        subst hg
        exact hlen
      · simp at hg
    · split at hg
      · rename_i m heq
        dsimp only at hg
        split at hg
        · rename_i hlen
          simp only [List.mem_singleton] at hg
          subst hg
          simp [hlen]
        · simp at hg
      · simp at hg

/-- C6: every market group produced by `extractMarketGroups` has
`|token_ids| ≥ 2` (the negative-risk branch emits only with ≥ 2 collected
yes-tokens, the binary branch only with exactly two parsed tokens), and an
event flagged negative-risk with exactly one sub-market is handled by the
binary branch, using both parsed tokens. -/
theorem extractMarketGroups_wellformed (parse : String → List String)
    (events : List GammaEvent) :
    (∀ g ∈ extractMarketGroups parse events, 2 ≤ g.tokenIds.length)
    ∧ (∀ e : GammaEvent, e.negRisk = true → ∀ m : GammaMarket, e.markets = [m] →
        eventGroups parse e
          = if (parse m.clobTokenIds).length = 2 then
              [{ conditionId := m.conditionId, tokenIds := parse m.clobTokenIds }]
            else []) := by
  constructor
  · intro g hg
    rw [extractMarketGroups] at hg
    simp only [List.mem_flatten, List.mem_map] at hg
    obtain ⟨l, ⟨e, _, rfl⟩, hgl⟩ := hg
    exact eventGroups_two_le parse e g hgl
  · intro e hneg m hm
    simp [eventGroups, hm]

/-- C6 witness: a negative-risk event with a single two-token sub-market
goes through the binary branch and its group keeps both tokens. -/
theorem extractMarketGroups_wellformed_witness :
    (2 ≤ ({ conditionId := "c1", tokenIds := ["a", "b"] } : MarketGroup).tokenIds.length)
    ∧ eventGroups (fun s => if s = "ab" then ["a", "b"] else [])
        { negRisk := true, markets := [{ conditionId := "c1", clobTokenIds := "ab" }] }
        = [{ conditionId := "c1", tokenIds := ["a", "b"] }] := by
  have h := extractMarketGroups_wellformed (fun s => if s = "ab" then ["a", "b"] else [])
    [{ negRisk := true, markets := [{ conditionId := "c1", clobTokenIds := "ab" }] }]
  refine ⟨?_, ?_⟩
  · exact h.1 { conditionId := "c1", tokenIds := ["a", "b"] }
      (by simp [extractMarketGroups, eventGroups])
  · have h2 := h.2 { negRisk := true, markets := [{ conditionId := "c1", clobTokenIds := "ab" }] }
      rfl { conditionId := "c1", clobTokenIds := "ab" } rfl
    simpa using h2

/-- The change detector reports no change when comparing a list against
itself. -/
theorem hasChanged_self (gs : List MarketGroup) : hasChanged gs gs = false := by
  simp [hasChanged]

/-- C7 (amended): running `fetchAndUpdate` twice on the same fetched group
list emits `market_groups_updated` at most once — exactly once when the
list differs (under `hasChanged`) from the stored one, zero times when it
does not; the second pass never emits and leaves the stored list as the
first pass left it. -/
theorem fetchAndUpdate_twice_emits_at_most_once (groups current : List MarketGroup) :
    (let r1 := fetchAndUpdate groups current
     let r2 := fetchAndUpdate groups r1.1
     r2.2 = [] ∧ r2.1 = r1.1
     ∧ (r1.2 ++ r2.2).length ≤ 1
     ∧ (hasChanged groups current = true →
          r1.2 ++ r2.2 = [Ev.marketGroupsUpdated groups])
     ∧ (hasChanged groups current = false → r1.2 ++ r2.2 = [])) := by
  cases h : hasChanged groups current with
  | true => simp [fetchAndUpdate, h, hasChanged_self]
  | false => simp [fetchAndUpdate, h]

/-- C7 counterexample: from a fresh service (stored list `[]`) a fetch that
extracts the empty group list emits zero `market_groups_updated` events
over two passes, not exactly one. -/
theorem fetchAndUpdate_twice_from_empty_emits_zero :
    (let r1 := fetchAndUpdate ([] : List MarketGroup) []
     let r2 := fetchAndUpdate ([] : List MarketGroup) r1.1
     (r1.2 ++ r2.2).length = 0 ∧ (r1.2 ++ r2.2).length ≠ 1) := by
  simp [fetchAndUpdate, hasChanged]

/-- C7 witness: from a fresh service a non-empty extraction emits exactly
once over the two passes. -/
theorem fetchAndUpdate_twice_emits_at_most_once_witness :
    hasChanged [{ conditionId := "c1", tokenIds := ["a", "b"] }] [] = true
    ∧ ((fetchAndUpdate [{ conditionId := "c1", tokenIds := ["a", "b"] }] []).2
        ++ (fetchAndUpdate [{ conditionId := "c1", tokenIds := ["a", "b"] }]
              (fetchAndUpdate [{ conditionId := "c1", tokenIds := ["a", "b"] }] []).1).2)
        = [Ev.marketGroupsUpdated [{ conditionId := "c1", tokenIds := ["a", "b"] }]] := by
  have hch : hasChanged [{ conditionId := "c1", tokenIds := ["a", "b"] }] [] = true := by
    simp [hasChanged]
  exact ⟨hch,
    (fetchAndUpdate_twice_emits_at_most_once
      [{ conditionId := "c1", tokenIds := ["a", "b"] }] []).2.2.2.1 hch⟩

/-- An admitted order leaves the risk state untouched and emits nothing
(only the daily-loss rejection branch has side effects). -/
theorem checkOrder_allowed_no_effects (o : OrderRequest) (rs : RiskState) (s : Store)
    (h : (checkOrder o rs s).1.allowed = true) :
    (checkOrder o rs s).2.1 = rs ∧ (checkOrder o rs s).2.2 = [] := by
  unfold checkOrder at h ⊢
  dsimp only at h ⊢
  split_ifs at h ⊢
  all_goals simp_all

/-- `checkOrder` emits either nothing or exactly the daily-loss
`risk_breach`. -/
theorem checkOrder_events_cases (o : OrderRequest) (rs : RiskState) (s : Store) :
    (checkOrder o rs s).2.2 = [] ∨
      (checkOrder o rs s).2.2 = [Ev.riskBreach dailyLossHaltMsg] := by
  unfold checkOrder haltRM
  dsimp only
  split_ifs <;> simp

/-- C9 (amended): a risk-rejected `submitOrder` returns
`{success: false, error: reason}` and performs no store mutation — no order
saved, no status change, no position touched — and emits no order or
position event; the only possible emission is the single `risk_breach`
produced by the risk check itself when the daily-loss halt latches. -/
theorem submitOrder_rejected_no_store_mutation
    (client : OrderRequest → OrderResult) (dryRun : Bool) (now : Nat)
    (o : OrderRequest) (w : World)
    (h : (checkOrder o w.risk w.store).1.allowed = false) :
    (submitOrder client dryRun now o w).1
      = { success := false, error := (checkOrder o w.risk w.store).1.reason }
    ∧ (submitOrder client dryRun now o w).2.store = w.store
    ∧ ((submitOrder client dryRun now o w).2.events = w.events
       ∨ (submitOrder client dryRun now o w).2.events
           = w.events ++ [Ev.riskBreach dailyLossHaltMsg]) := by
  have hev := checkOrder_events_cases o w.risk w.store
  refine ⟨by simp [submitOrder, h], by simp [submitOrder, h], ?_⟩
  rcases hev with h' | h' <;> simp [submitOrder, h, h']

/-- C9 counterexample: a daily-loss rejection inside `submitOrder` does
emit an event (`risk_breach`), so "no event is emitted" fails as stated. -/
theorem submitOrder_rejected_emits_risk_breach :
    (let w : World :=
       { risk := { limits := { maxPositionSize := 100, maxTotalExposure := 1000,
                               maxLossPerTrade := 25, maxDailyLoss := 50,
                               maxOpenOrders := 5 },
                   halted := false, haltReason := none },
         store := { positions := [], orders := [], dailyPnl := -60 },
         events := [] }
     let o : OrderRequest := { tokenId := "tk", side := Side.BUY, price := 1/2,
                               size := 10, type := OrderType.GTC }
     let r := submitOrder (fun _ => { success := false }) false 0 o w
     r.1.success = false ∧ r.2.events = [Ev.riskBreach dailyLossHaltMsg]
       ∧ r.2.events ≠ ([] : List Ev)) := by
  refine ⟨?_, ?_, ?_⟩ <;>
    norm_num [submitOrder, checkOrder, haltRM, exposureTotal,
      Store.getAllPositions, Store.getOpenOrders]

/-- C9 witness: the amended theorem applied at the daily-loss rejection
world. -/
theorem submitOrder_rejected_no_store_mutation_witness :
    (let w : World :=
       { risk := { limits := { maxPositionSize := 100, maxTotalExposure := 1000,
                               maxLossPerTrade := 25, maxDailyLoss := 50,
                               maxOpenOrders := 5 },
                   halted := false, haltReason := none },
         store := { positions := [], orders := [], dailyPnl := -60 },
         events := [] }
     let o : OrderRequest := { tokenId := "tk", side := Side.BUY, price := 1/2,
                               size := 10, type := OrderType.GTC }
     (submitOrder (fun _ => { success := false }) false 0 o w).2.store = w.store) :=
  (submitOrder_rejected_no_store_mutation (fun _ => { success := false }) false 0
    { tokenId := "tk", side := Side.BUY, price := 1/2, size := 10, type := OrderType.GTC }
    { risk := { limits := { maxPositionSize := 100, maxTotalExposure := 1000,
                            maxLossPerTrade := 25, maxDailyLoss := 50,
                            maxOpenOrders := 5 },
                halted := false, haltReason := none },
      store := { positions := [], orders := [], dailyPnl := -60 },
      events := [] }
    (by norm_num [checkOrder, haltRM, exposureTotal,
          Store.getAllPositions, Store.getOpenOrders])).2.1

/-- C10: in dry-run mode an admitted order returns a synthetic success with
the deterministic `dry-` identifier and mutates nothing: the store, the
event log, and the risk state are all left exactly as they were. -/
theorem submitOrder_dryRun_no_mutation (client : OrderRequest → OrderResult)
    (now : Nat) (o : OrderRequest) (w : World)
    (h : (checkOrder o w.risk w.store).1.allowed = true) :
    (submitOrder client true now o w).1
      = { success := true, orderId := some (dryOrderId now) }
    ∧ (submitOrder client true now o w).2 = w := by
  have hfx := checkOrder_allowed_no_effects o w.risk w.store h
  refine ⟨by simp [submitOrder, h], ?_⟩
  simp [submitOrder, h, hfx.1, hfx.2]

/-- C10 witness: a concrete admitted dry-run order. -/
theorem submitOrder_dryRun_no_mutation_witness :
    (let w : World :=
       { risk := { limits := { maxPositionSize := 100, maxTotalExposure := 1000,
                               maxLossPerTrade := 25, maxDailyLoss := 50,
                               maxOpenOrders := 5 },
                   halted := false, haltReason := none },
         store := { positions := [], orders := [], dailyPnl := 0 },
         events := [] }
     let o : OrderRequest := { tokenId := "tk", side := Side.BUY, price := 1/2,
                               size := 10, type := OrderType.GTC }
     (submitOrder (fun _ => { success := false }) true 7 o w).1
        = { success := true, orderId := some (dryOrderId 7) }
     ∧ (submitOrder (fun _ => { success := false }) true 7 o w).2 = w) :=
  submitOrder_dryRun_no_mutation (fun _ => { success := false }) 7
    { tokenId := "tk", side := Side.BUY, price := 1/2, size := 10, type := OrderType.GTC }
    { risk := { limits := { maxPositionSize := 100, maxTotalExposure := 1000,
                            maxLossPerTrade := 25, maxDailyLoss := 50,
                            maxOpenOrders := 5 },
                halted := false, haltReason := none },
      store := { positions := [], orders := [], dailyPnl := 0 },
      events := [] }
    (by norm_num [checkOrder, exposureTotal, Store.getAllPositions, Store.getOpenOrders])

/-- Folding `min` commutes with an initial `min` (helper for the sizing
computation). -/
theorem foldl_min_comm {α : Type} (f : α → ℚ) (l : List α) (a b : ℚ) :
    l.foldl (fun sz t => min sz (f t)) (min a b)
      = min a (l.foldl (fun sz t => min sz (f t)) b) := by
  induction l generalizing b with
  | nil => simp
  | cons c l ih =>
    simp only [List.foldl_cons]
    rw [min_assoc, ih]

/-- The code's per-token capacity fold equals `min` of the accumulator with
the list minimum. -/
theorem foldl_min_eq_min_listMin {α : Type} (f : α → ℚ) (a : ℚ) (l : List α)
    (h : l ≠ []) :
    l.foldl (fun sz t => min sz (f t)) a = min a (listMin (l.map f)) := by
  cases l with
  | nil => exact absurd rfl h
  | cons x xs =>
    simp only [List.foldl_cons, List.map_cons, listMin, List.foldl_map]
    exact foldl_min_comm f xs a (f x)

/-- C4: when every token of the group has a non-empty ask side, the edge
`1 − (Σ best ask) × (1 + fee)` reaches `min_edge`, and the capped size is
positive, the simple-arb check emits exactly one BUY signal per token, each
at that token's best ask, all sharing
`size = min(base, min ask size, min remaining capacity)` and
`confidence = min(edge/min_edge, 1)`; `evaluate` returns these signals and
the Bregman check is not reached (the simple result is non-empty and
short-circuits). -/
theorem checkSimpleArb_emits_basket (cfg : BregmanArbConfig) (tokens : List String)
    (books : String → OrderBook) (posSize : String → ℚ)
    (hne : tokens ≠ [])
    (hasks : ∀ t ∈ tokens, (books t).asks ≠ [])
    (hedge : cfg.minEdge ≤ simpleEdge cfg tokens books)
    (hsize : 0 < simpleArbSize cfg tokens books posSize) :
    checkSimpleArb cfg tokens books posSize
      = tokens.map (fun t =>
          { tokenId := t, side := Side.BUY,
            confidence := ((min (simpleEdge cfg tokens books / cfg.minEdge) 1 : ℚ) : ℝ),
            targetPrice := (((bestAsk (books t)).price : ℚ) : ℝ),
            size := ((simpleArbSize cfg tokens books posSize : ℚ) : ℝ) })
    ∧ checkSimpleArb cfg tokens books posSize ≠ []
    ∧ evaluateSignals cfg tokens books posSize
        = checkSimpleArb cfg tokens books posSize := by
  have hany : tokens.any (fun t => (books t).asks.isEmpty) = false := by
    rw [List.any_eq_false]
    intro t ht
    simpa [List.isEmpty_iff] using hasks t ht
  have hfold : tokens.foldl (fun sz t => min sz (cfg.maxPositionSize - posSize t))
      (min cfg.orderSize (listMin (tokens.map (fun t => (bestAsk (books t)).size))))
      = simpleArbSize cfg tokens books posSize := by
    rw [foldl_min_eq_min_listMin _ _ _ hne, simpleArbSize, min_assoc]
  have h1 : checkSimpleArb cfg tokens books posSize
      = tokens.map (fun t =>
          { tokenId := t, side := Side.BUY,
            confidence := ((min (simpleEdge cfg tokens books / cfg.minEdge) 1 : ℚ) : ℝ),
            targetPrice := (((bestAsk (books t)).price : ℚ) : ℝ),
            size := ((simpleArbSize cfg tokens books posSize : ℚ) : ℝ) }) := by
    unfold checkSimpleArb
    dsimp only
    rw [hany]
    simp only [Bool.false_eq_true, if_false, if_neg (not_lt.mpr hedge), hfold,
      if_neg (not_le.mpr hsize)]
  have h2 : checkSimpleArb cfg tokens books posSize ≠ [] := by
    rw [h1]
    simpa using hne
  refine ⟨h1, h2, ?_⟩
  unfold evaluateSignals
  dsimp only
  rw [if_neg]
  simpa [List.isEmpty_iff] using h2

/-- C4 witness: two-token group, asks 0.40/0.40 of depth 30, fee 2%,
`min_edge` 1%, base size 10, max position 50, no current positions. -/
theorem checkSimpleArb_emits_basket_witness :
    (let cfg : BregmanArbConfig :=
       { divergenceThreshold := 1/20, orderSize := 10, maxPositionSize := 50,
         minEdge := 1/100, feeRate := 1/50 }
     let books : String → OrderBook := fun t =>
       if t = "A" then { asks := [{ price := 2/5, size := 30 }], midPrice := 2/5 }
       else { asks := [{ price := 2/5, size := 30 }], midPrice := 2/5 }
     checkSimpleArb cfg ["A", "B"] books (fun _ => 0) ≠ []
     ∧ evaluateSignals cfg ["A", "B"] books (fun _ => 0)
         = checkSimpleArb cfg ["A", "B"] books (fun _ => 0)) := by
  have h := checkSimpleArb_emits_basket
    { divergenceThreshold := 1/20, orderSize := 10, maxPositionSize := 50,
      minEdge := 1/100, feeRate := 1/50 }
    ["A", "B"]
    (fun t => if t = "A" then { asks := [{ price := 2/5, size := 30 }], midPrice := 2/5 }
              else { asks := [{ price := 2/5, size := 30 }], midPrice := 2/5 })
    (fun _ => 0)
    (by simp)
    (by intro t ht; fin_cases ht <;> simp)
    (by norm_num [simpleEdge, bestAsk])
    (by norm_num [simpleArbSize, listMin, bestAsk])
  exact ⟨h.2.1, h.2.2⟩

/-- `argminGo` is the first projection of its ghost variant. -/
theorem argminGo_eq_fst (ys : List ℚ) :
    ∀ (bv : ℚ) (best i : Nat), argminGo ys bv best i = (argminGoV ys bv best i).1 := by
  induction ys with
  | nil => intro bv best i; rfl
  | cons y ys ih =>
    intro bv best i
    unfold argminGo argminGoV
    split
    · exact ih y i (i + 1)
    · exact ih bv best (i + 1)

/-- The running minimum of the scan is a lower bound of the seed and of
every scanned element. -/
theorem argminGoV_le (ys : List ℚ) :
    ∀ (bv : ℚ) (best i : Nat),
      (argminGoV ys bv best i).2 ≤ bv ∧ ∀ q ∈ ys, (argminGoV ys bv best i).2 ≤ q := by
  induction ys with
  | nil => intro bv best i; exact ⟨le_refl bv, by simp⟩
  | cons y ys ih =>
    intro bv best i
    unfold argminGoV
    split
    · rename_i hlt
      have h := ih y i (i + 1)
      refine ⟨h.1.trans hlt.le, ?_⟩
      intro q hq
      rcases List.mem_cons.mp hq with rfl | hq'
      · exact h.1
      · exact h.2 q hq'
    · rename_i hge
      have h := ih bv best (i + 1)
      refine ⟨h.1, ?_⟩
      intro q hq
      rcases List.mem_cons.mp hq with rfl | hq'
      · exact h.1.trans (not_lt.mp hge)
      · exact h.2 q hq'

/-- The scan's reported index points at its reported value in the original
list. -/
theorem argminGoV_getD (l : List ℚ) (ys : List ℚ) :
    ∀ (bv : ℚ) (best i : Nat), l.drop i = ys → l.getD best 0 = bv →
      l.getD (argminGoV ys bv best i).1 0 = (argminGoV ys bv best i).2 := by
  induction ys with
  | nil => intro bv best i _ hbest; exact hbest
  | cons y ys ih =>
    intro bv best i hdrop hbest
    have hyi : l.getD i 0 = y := by
      have h0 : l[i]? = some y := by
        have := List.getElem?_drop l i 0
        rw [hdrop] at this
        simpa using this.symm
      simp [List.getD, h0]
    have hdrop' : l.drop (i + 1) = ys := by
      have h1 : l.drop (i + 1) = (l.drop i).drop 1 := (List.drop_drop 1 i l).symm
      rw [h1, hdrop]
      rfl
    unfold argminGoV
    split
    · exact ih y i (i + 1) hdrop' hyi
    · exact ih bv best (i + 1) hdrop' hbest

/-- The element at the code's `minProbIdx` is a minimum of the list. -/
theorem getD_argmin_le (l : List ℚ) : ∀ q ∈ l, l.getD (argmin l) 0 ≤ q := by
  cases l with
  | nil => simp
  | cons x xs =>
    intro q hq
    have hidx : argmin (x :: xs) = (argminGoV xs x 0 1).1 := by
      unfold argmin
      exact argminGo_eq_fst xs x 0 1
    have hcoh := argminGoV_getD (x :: xs) xs x 0 1 (by simp) (by simp [List.getD])
    have hle := argminGoV_le xs x 0 1
    rw [hidx, hcoh]
    rcases List.mem_cons.mp hq with rfl | hq'
    · exact hle.1
    · exact hle.2 q hq'

/-- C5: when the simple-arb path is empty, the price sum is non-zero, all
implied probabilities are positive, the KL divergence reaches the
threshold, and the target's position capacity and the computed size are
positive, the Bregman branch emits exactly one BUY signal on the token of
minimal implied probability at its best ask price (asks assumed
non-empty), with `confidence = min(D / (2 × threshold), 1)`; `evaluate`
returns exactly that signal. -/
theorem checkBregmanArb_single_signal (cfg : BregmanArbConfig) (tokens : List String)
    (books : String → OrderBook) (posSize : String → ℚ)
    (hsimple : checkSimpleArb cfg tokens books posSize = [])
    (hsum : (midPrices tokens books).sum ≠ 0)
    (hq : ∀ q ∈ impliedProbs tokens books, 0 < q)
    (hD : (cfg.divergenceThreshold : ℝ) ≤ bregKlDiv tokens books)
    (hpos : posSize (bregTarget tokens books) < cfg.maxPositionSize)
    (hasksne : (books (bregTarget tokens books)).asks ≠ [])
    (hsz : 0 < bregSize cfg tokens books posSize) :
    checkBregmanArb cfg tokens books posSize
      = [{ tokenId := bregTarget tokens books, side := Side.BUY,
           confidence := min (bregKlDiv tokens books / ((cfg.divergenceThreshold : ℝ) * 2)) 1,
           targetPrice := (((bestAsk (books (bregTarget tokens books))).price : ℚ) : ℝ),
           size := bregSize cfg tokens books posSize }]
    ∧ evaluateSignals cfg tokens books posSize
        = checkBregmanArb cfg tokens books posSize
    ∧ (∀ q ∈ impliedProbs tokens books,
        (impliedProbs tokens books).getD (argmin (impliedProbs tokens books)) 0 ≤ q) := by
  have hany : (impliedProbs tokens books).any (fun q => q ≤ 0) = false := by
    rw [List.any_eq_false]
    intro q hqmem
    simpa using not_le.mpr (hq q hqmem)
  have haskEmpty : (books (bregTarget tokens books)).asks.isEmpty = false := by
    simpa [List.isEmpty_iff] using hasksne
  have h1 : checkBregmanArb cfg tokens books posSize
      = [{ tokenId := bregTarget tokens books, side := Side.BUY,
           confidence := min (bregKlDiv tokens books / ((cfg.divergenceThreshold : ℝ) * 2)) 1,
           targetPrice := (((bestAsk (books (bregTarget tokens books))).price : ℚ) : ℝ),
           size := bregSize cfg tokens books posSize }] := by
    unfold bregTarget at haskEmpty hpos
    unfold bregKlDiv at hD
    unfold bregSize bregTarget bregKlDiv at hsz
    dsimp only at hsz
    rw [haskEmpty] at hsz
    simp only [Bool.false_eq_true, if_false] at hsz
    unfold checkBregmanArb bregSize bregTarget bregKlDiv
    dsimp only
    rw [if_neg hsum, hany, haskEmpty]
    simp only [Bool.false_eq_true, if_false]
    rw [if_neg (not_lt.mpr hD), if_neg (not_le.mpr hpos), if_neg (not_le.mpr hsz)]
  refine ⟨h1, ?_, getD_argmin_le (impliedProbs tokens books)⟩
  unfold evaluateSignals
  dsimp only
  rw [hsimple]
  simp

/-- C5 witness: the spec's binary example with mids 0.80/0.20 — the
divergence is `ln(5/4) ≈ 0.223 ≥ 0.05`, and the single BUY signal lands on
the 0.20 token ("N") at its best ask. -/
theorem checkBregmanArb_single_signal_witness :
    bregTarget ["Y", "N"] c5Books = "N"
    ∧ evaluateSignals c5Cfg ["Y", "N"] c5Books (fun _ => 0)
        = [{ tokenId := bregTarget ["Y", "N"] c5Books, side := Side.BUY,
             confidence := min (bregKlDiv ["Y", "N"] c5Books
               / ((c5Cfg.divergenceThreshold : ℝ) * 2)) 1,
             targetPrice := (((bestAsk (c5Books (bregTarget ["Y", "N"] c5Books))).price : ℚ) : ℝ),
             size := bregSize c5Cfg ["Y", "N"] c5Books (fun _ => 0) }] := by
  have hbooksY : c5Books "Y" = { asks := [{ price := 81/100, size := 30 }], midPrice := 4/5 } := by
    simp [c5Books]
  have hbooksN : c5Books "N" = { asks := [{ price := 21/100, size := 30 }], midPrice := 1/5 } := by
    simp [c5Books]
  have hprobs : impliedProbs ["Y", "N"] c5Books = [4/5, 1/5] := by
    simp [impliedProbs, midPrices, hbooksY, hbooksN]
    norm_num
  have htarget : bregTarget ["Y", "N"] c5Books = "N" := by
    rw [bregTarget, hprobs]
    norm_num [argmin, argminGo]
  have hkl : bregKlDiv ["Y", "N"] c5Books
      = (1/2 : ℝ) * Real.log (5/8) + (1/2 : ℝ) * Real.log (5/2) := by
    rw [bregKlDiv, hprobs]
    norm_num [klDivOf]
  have hlog : (9/25 : ℝ) ≤ Real.log (5/8) + Real.log (5/2) := by
    have hmul : Real.log ((5:ℝ)/8) + Real.log ((5:ℝ)/2) = Real.log ((25:ℝ)/16) := by
      rw [← Real.log_mul (by norm_num) (by norm_num)]
      norm_num
    rw [hmul]
    have h1 : Real.log ((16:ℝ)/25) ≤ (16:ℝ)/25 - 1 :=
      Real.log_le_sub_one_of_pos (by norm_num)
    have h2 : Real.log ((25:ℝ)/16) = -Real.log ((16:ℝ)/25) := by
      rw [← Real.log_inv]
      norm_num
    rw [h2]
    linarith
  have hklge : (9/50 : ℝ) ≤ bregKlDiv ["Y", "N"] c5Books := by
    rw [hkl]
    linarith
  have hklpos : (0 : ℝ) < bregKlDiv ["Y", "N"] c5Books :=
    lt_of_lt_of_le (by norm_num) hklge
  have hasksne : (c5Books (bregTarget ["Y", "N"] c5Books)).asks ≠ [] := by
    rw [htarget, hbooksN]
    simp
  have hsz : (0 : ℝ) < bregSize c5Cfg ["Y", "N"] c5Books (fun _ => 0) := by
    unfold bregSize
    dsimp only
    rw [htarget, hbooksN]
    simp only [bestAsk, List.isEmpty_cons, Bool.false_eq_true, if_false, List.headD]
    refine lt_min (mul_pos (by norm_num [c5Cfg]) (lt_min ?_ (by norm_num))) ?_
    · exact div_pos hklpos (by norm_num [c5Cfg])
    · refine lt_min (by norm_num) (by norm_num [c5Cfg])
  have hsimple : checkSimpleArb c5Cfg ["Y", "N"] c5Books (fun _ => 0) = [] := by
    simp only [checkSimpleArb, simpleEdge, bestAsk, List.any_cons, List.any_nil,
      List.map_cons, List.map_nil, hbooksY, hbooksN]
    norm_num [c5Cfg]
  have h := checkBregmanArb_single_signal c5Cfg ["Y", "N"] c5Books (fun _ => 0)
    hsimple
    (by simp [midPrices, hbooksY, hbooksN]; norm_num)
    (by
      rw [hprobs]
      intro q hqm
      simp only [List.mem_cons, List.mem_singleton] at hqm
      rcases hqm with rfl | hqm
      · norm_num
      · rcases hqm with rfl | hqm
        · norm_num
        · simp at hqm)
    (le_trans (by norm_num [c5Cfg]) hklge)
    (by
      rw [htarget]
      norm_num [c5Cfg])
    hasksne
    hsz
  exact ⟨htarget, h.2.1.trans h.1⟩

end PolyBot
